import Mathlib

/-!
Verification development for the spectral-assembly and output pipeline of
`timsconvert` (file `timsconvert/write.py`, entry points in `bin/run.py`).

The Python functions are shallowly embedded as Lean definitions:

* the chunk-planning loop of `write_lcms_mzml` (lines 479-521) and
  `write_maldi_ims_imzml` (lines 963-995) becomes `plan_chunks`;
* `write_lcms_chunk_to_mzml` (lines 389-418) becomes `write_lcms_chunk_to_mzml`;
* the combined / individual branches of `write_maldi_dd_mzml` become
  `write_maldi_dd_combined_loop` and `write_maldi_dd_individual`;
* the precursor-dictionary construction of `write_ms2_spectrum`
  (lines 294-313) becomes `build_precursor_info`;
* `update_spectra_count` (lines 147-172) and the rename-or-patch dispatch of
  `write_lcms_mzml` (lines 523-530) become `update_spectra_count` and
  `finalize_lcms_mzml`, with Python's `str.replace` embedded as `py_replace`
  over `List Char`.

Machine integers do not overflow in any of the embedded code paths (frame
identifiers and counts are small Python ints), so `Int`/`Nat` are used directly.
-/

namespace Timsconvert

/-! ### ChunkPlanner: the chunk-planning loop

The source (`write_lcms_mzml`, lines 479-521):

```
chunk = 0
while chunk + chunk_size + 1 <= len(data.ms1_frames):
    chunk_list = []
    for i, j in zip(data.ms1_frames[chunk: chunk + chunk_size],
                    data.ms1_frames[chunk + 1: chunk + chunk_size + 1]):
        chunk_list.append((int(i), int(j)))
    for frame_start, frame_stop in chunk_list: ...write...
    chunk += chunk_size
else:
    chunk_list = []
    for i, j in zip(data.ms1_frames[chunk:-1], data.ms1_frames[chunk + 1:]):
        chunk_list.append((int(i), int(j)))
    chunk_list.append((j, data.analysis['Frames'].shape[0] + 1))
    for frame_start, frame_stop in chunk_list: ...write...
```

`write_maldi_ims_imzml` (lines 963-995) runs the identical loop over
`data.analysis['Frames']['Id']`.  The embedding collects, in order, every
`(frame_start, frame_stop)` pair handed to the per-chunk writer.
-/

/-- Python `zip(frames[chunk : chunk + chunk_size], frames[chunk + 1 : chunk + chunk_size + 1])`
(the while-loop body of the chunk-planning loop). -/
def slice_pairs_while (frames : List Int) (chunk_size chunk : Nat) : List (Int × Int) :=
  List.zip ((frames.drop chunk).take chunk_size) ((frames.drop (chunk + 1)).take chunk_size)

/-- Python `zip(frames[chunk:-1], frames[chunk + 1:])` (the final-chunk body). -/
def slice_pairs_final (frames : List Int) (chunk : Nat) : List (Int × Int) :=
  List.zip ((frames.take (frames.length - 1)).drop chunk) (frames.drop (chunk + 1))

/-- The Python loop variable `j` after `for i, j in zip(...)`: the second component
of the last iterated pair when the loop ran at least once, otherwise whatever `j`
held before.  `none` means `j` was never bound; reading it then raises `NameError`
in the source. -/
def last_j (pairs : List (Int × Int)) (j0 : Option Int) : Option Int :=
  match pairs.getLast? with
  | some pr => some pr.2
  | none => j0

/-- The chunk-planning loop.  `fuel` bounds the number of `while` iterations; the
wrapper `plan_chunks` supplies `frames.length + 1`, which suffices for every
`chunk_size ≥ 1` because `chunk` grows by `chunk_size` each pass (for
`chunk_size = 0` the source loops forever, which the exhausted fuel models as
`none`).  `none` also models the source raising `NameError` when the final-chunk
`chunk_list.append((j, ...))` reads an unbound `j`. -/
def plan_chunks_loop (frames : List Int) (chunk_size : Nat) (num_frames : Int) :
    Nat → Nat → Option Int → Option (List (Int × Int))
  | 0, _, _ => none
  | fuel + 1, chunk, j0 =>
    if chunk + chunk_size + 1 ≤ frames.length then
      Option.map (fun rest => slice_pairs_while frames chunk_size chunk ++ rest)
        (plan_chunks_loop frames chunk_size num_frames fuel (chunk + chunk_size)
          (last_j (slice_pairs_while frames chunk_size chunk) j0))
    else
      match last_j (slice_pairs_final frames chunk) j0 with
      | some j => some (slice_pairs_final frames chunk ++ [(j, num_frames + 1)])
      | none => none

/-- All `(frame_start, frame_stop)` ranges produced by the chunk-planning loop of
`write_lcms_mzml` / `write_maldi_ims_imzml`, in emission order.  `frames` is
`data.ms1_frames` (resp. the frame id list), `num_frames` is
`data.analysis['Frames'].shape[0]` (resp. `['Spectra']` for BAF data). -/
def plan_chunks (frames : List Int) (chunk_size : Nat) (num_frames : Int) :
    Option (List (Int × Int)) :=
  plan_chunks_loop frames chunk_size num_frames (frames.length + 1) 0 none

/-- The list of adjacent pairs `(frames[k], frames[k+1])` of a list; reference
shape for the ranges the loop actually emits. -/
def adj_pairs : List Int → List (Int × Int)
  | a :: b :: rest => (a, b) :: adj_pairs (b :: rest)
  | _ => []

/-- The full range list the loop emits on a list of length ≥ 2: all adjacent
pairs followed by `(last frame id, num_frames + 1)`. -/
def ranges_of (s : List Int) (num_frames : Int) : List (Int × Int) :=
  adj_pairs s ++ [(s.getLast?.getD 0, num_frames + 1)]

/-! ### ScanRecord and the per-chunk writer -/

/-- `scan['charge_state']` as read by `write_ms2_spectrum`: Python `None`, a
float NaN, or a numeric value. -/
inductive ChargeState
  | unset
  | nan
  | val (z : Int)
deriving DecidableEq, Repr

/-- The per-spectrum dictionaries produced by the parsers and consumed by the
writer functions, restricted to the fields those functions read.  Numeric
payload fields are carried through unchanged by the embedded code, so they are
modelled as `Int`. -/
structure ScanRecord where
  frame : Int := 0
  parent_frame : Int := 0
  ms_level : Nat := 1
  ms2_no_precursor : Bool := false
  coord : String := ""
  selected_ion_mz : Int := 0
  selected_ion_intensity : Option Int := none
  selected_ion_mobility : Option Int := none
  selected_ion_ccs : Option Int := none
  charge_state : ChargeState := ChargeState.unset
  collision_energy : Int := 0
  target_mz : Int := 0
  isolation_upper_offset : Int := 0
  isolation_lower_offset : Int := 0
deriving DecidableEq, Repr

/-- `scan_count += 1; scan['scan_number'] = scan_count; writer.write_spectrum(...)`:
one write appends the record paired with its freshly assigned scan number. -/
def push_write (acc : Nat × List (Nat × ScanRecord)) (s : ScanRecord) :
    Nat × List (Nat × ScanRecord) :=
  (acc.1 + 1, acc.2 ++ [(acc.1 + 1, s)])

/-- Loop body used where the counter is incremented for every record but a
spectrum is only written when `ms_level` is 1 or 2 (branch 3 of
`write_lcms_chunk_to_mzml`, lines 407-417, and the write loop of
`write_maldi_dd_mzml`). -/
def push_write_leveled (acc : Nat × List (Nat × ScanRecord)) (s : ScanRecord) :
    Nat × List (Nat × ScanRecord) :=
  if s.ms_level = 1 then (acc.1 + 1, acc.2 ++ [(acc.1 + 1, s)])
  else if s.ms_level = 2 then (acc.1 + 1, acc.2 ++ [(acc.1 + 1, s)])
  else (acc.1 + 1, acc.2)

/-- Branch 1 body of `write_lcms_chunk_to_mzml` (lines 391-401): write one
parent, then the products whose `parent_frame` equals the parent's `frame`. -/
def write_parent_with_products (product_scans : List ScanRecord)
    (acc : Nat × List (Nat × ScanRecord)) (parent : ScanRecord) :
    Nat × List (Nat × ScanRecord) :=
  (product_scans.filter (fun i => i.parent_frame == parent.frame)).foldl push_write
    (push_write acc parent)

/-- `write_lcms_chunk_to_mzml` (lines 389-418), with the parser output passed in
as `parent_scans` / `product_scans` and every psims write collected as a
`(scan_number, record)` pair in write order.  Returns the updated `scan_count`
together with the writes.  The source has no further `else`: when all three
conditions fail it writes nothing and returns `scan_count` unchanged. -/
def write_lcms_chunk_to_mzml (ms2_only : Bool)
    (parent_scans product_scans : List ScanRecord) (scan_count : Nat) :
    Nat × List (Nat × ScanRecord) :=
  if ¬ ms2_only ∧ product_scans ≠ [] then
    parent_scans.foldl (write_parent_with_products product_scans) (scan_count, [])
  else if ms2_only ∨ parent_scans = [] then
    product_scans.foldl push_write (scan_count, [])
  else if product_scans = [] then
    parent_scans.foldl push_write_leveled (scan_count, [])
  else
    (scan_count, [])

/-- The chunk loop of `write_lcms_mzml`: fold `write_lcms_chunk_to_mzml` over the
parsed chunks, threading `scan_count` (initially 0) and concatenating the writes
into the single output stream. -/
def write_lcms_chunks (ms2_only : Bool)
    (chunks : List (List ScanRecord × List ScanRecord)) : Nat × List (Nat × ScanRecord) :=
  chunks.foldl
    (fun acc ch =>
      let r := write_lcms_chunk_to_mzml ms2_only ch.1 ch.2 acc.1
      (r.1, acc.2 ++ r.2))
    (0, [])

/-- The write loop of the `combined` branch of `write_maldi_dd_mzml`
(lines 627-647): under `ms2_only` an `ms_level == 1` record is skipped entirely
(`pass`); otherwise the counter is incremented and a spectrum written when
`ms_level` is 1 or 2. -/
def write_maldi_dd_combined_loop (ms2_only : Bool)
    (list_of_scan_dicts : List ScanRecord) : Nat × List (Nat × ScanRecord) :=
  list_of_scan_dicts.foldl
    (fun acc s =>
      if ms2_only ∧ s.ms_level = 1 then acc
      else push_write_leveled acc s)
    (0, [])

/-- One output file of the `individual` branch of `write_maldi_dd_mzml`
(lines 687-718): `declared_count` is the `scan_count = 1` passed to
`writer.spectrum_list(count=...)`, `written` the spectra actually written, and
`count_reconciled` records whether `update_spectra_count` ran on the file (the
`individual` branch never calls it and writes to the final name directly). -/
structure IndividualFile where
  declared_count : Nat
  written : List (Nat × ScanRecord)
  count_reconciled : Bool
deriving DecidableEq, Repr

/-- Body of the per-record loop of the `individual` branch: the writer is opened
unconditionally for every record, `spectrum_list(count=1)` is declared, and the
record is written unless filtered out by `ms2_only` (or its level is neither
1 nor 2). -/
def write_maldi_dd_individual_file (ms2_only : Bool) (scan_dict : ScanRecord) :
    IndividualFile :=
  { declared_count := 1
    written :=
      if ms2_only ∧ scan_dict.ms_level = 1 then []
      else if scan_dict.ms_level = 1 then [(1, scan_dict)]
      else if scan_dict.ms_level = 2 then [(1, scan_dict)]
      else []
    count_reconciled := false }

/-- The `individual` branch of `write_maldi_dd_mzml`: one output file per
record of `list_of_scan_dicts`. -/
def write_maldi_dd_individual (ms2_only : Bool) (list_of_scan_dicts : List ScanRecord) :
    List IndividualFile :=
  list_of_scan_dicts.map (write_maldi_dd_individual_file ms2_only)

/-! ### SpectrumRecordWriter: the precursor block of write_ms2_spectrum -/

/-- The `precursor_info` dictionary built by `write_ms2_spectrum`
(lines 294-313).  An `Option` field is `none` when the corresponding `if` in the
source does not add the entry. -/
structure PrecursorInfo where
  mz : Int
  activation_collision_energy : Int
  isolation_target : Int
  isolation_upper : Int
  isolation_lower : Int
  intensity : Option Int
  inv_ion_mobility_param : Option Int
  ccs_param : Option Int
  charge : Option Int
  spectrum_reference : Option Nat
deriving DecidableEq, Repr

/-- Construction of `precursor_info` in `write_ms2_spectrum`.  The charge entry
mirrors
`if scan['charge_state'] is not None and not np.isnan(scan['charge_state']):`
`    if int(scan['charge_state']) != 0: precursor_info['charge'] = ...`,
and `spectrum_reference` is added exactly when a `parent_scan` was supplied
(line 312-313). -/
def build_precursor_info (scan : ScanRecord) (parent_scan_number : Option Nat) :
    PrecursorInfo :=
  { mz := scan.selected_ion_mz
    activation_collision_energy := scan.collision_energy
    isolation_target := scan.target_mz
    isolation_upper := scan.isolation_upper_offset
    isolation_lower := scan.isolation_lower_offset
    intensity := scan.selected_ion_intensity
    inv_ion_mobility_param := scan.selected_ion_mobility
    ccs_param := scan.selected_ion_ccs
    charge :=
      match scan.charge_state with
      | ChargeState.val z => if z ≠ 0 then some z else none
      | _ => none
    spectrum_reference := parent_scan_number }

/-! ### CountReconciler: update_spectra_count and the finalize dispatch -/

/-- Prefix test on character lists (an occurrence of `str.replace`'s pattern
starts here). -/
def leads_with : List Char → List Char → Bool
  | [], _ => true
  | _ :: _, [] => false
  | a :: ps, b :: ss => a == b && leads_with ps ss

/-- Does `pat` occur contiguously anywhere in `s`? -/
def occurs_in (pat : List Char) : List Char → Bool
  | [] => leads_with pat []
  | c :: rest => leads_with pat (c :: rest) || occurs_in pat rest

/-- Python `line.replace(old, new)`: replace every non-overlapping occurrence of
`old`, scanning left to right.  `fuel` bounds the scan; `py_replace` supplies
`s.length + 1`, which always suffices because each step consumes at least one
character.  (Python's `str.replace` with an empty pattern would splice `new`
between all characters; the embedded calls never use an empty pattern and the
guard leaves that corner as the identity.) -/
def replace_loop (old new : List Char) : Nat → List Char → List Char
  | 0, s => s
  | fuel + 1, [] =>
    if old ≠ [] ∧ leads_with old [] = true then
      new ++ replace_loop old new fuel (List.drop old.length [])
    else []
  | fuel + 1, c :: rest =>
    if old ≠ [] ∧ leads_with old (c :: rest) = true then
      new ++ replace_loop old new fuel ((c :: rest).drop old.length)
    else c :: replace_loop old new fuel rest

/-- Python `s.replace(old, new)`. -/
def py_replace (old new s : List Char) : List Char :=
  replace_loop old new (s.length + 1) s

def header_front : String := "      <spectrumList count=\""

def header_back : String := "\" defaultDataProcessingRef=\"exportation\">"

/-- The `spectrumList` header line targeted by `update_spectra_count`
(lines 170-171), with declared count `n`. -/
def spectrum_list_header (n : Nat) : List Char :=
  header_front.data ++ (Nat.repr n).data ++ header_back.data

/-- Result of finalizing one output file: the final file's lines, whether the
temporary `_tmp.mzML` file is gone afterwards, and whether the final file was
produced by `os.rename` of the temporary file (as opposed to a line-by-line
rewrite). -/
structure FinalFile where
  content : List (List Char)
  tmp_removed : Bool
  renamed : Bool
deriving DecidableEq, Repr

/-- `update_spectra_count` (lines 147-172): copy the temporary file line by
line, applying `line.replace(header(num_of_spectra), header(scan_count))` to
each, then `os.remove` the temporary file.  The source has no check that the
header line was actually found. -/
def update_spectra_count (tmp_lines : List (List Char)) (num_of_spectra scan_count : Nat) :
    FinalFile :=
  { content := tmp_lines.map
      (fun line => py_replace (spectrum_list_header num_of_spectra)
        (spectrum_list_header scan_count) line)
    tmp_removed := true
    renamed := false }

/-- End of `write_lcms_mzml` (lines 523-530): patch via `update_spectra_count`
when the declared count differs from the true count, otherwise `os.rename` the
temporary file into place (deleting any stale final file first). -/
def finalize_lcms_mzml (tmp_lines : List (List Char)) (num_of_spectra scan_count : Nat) :
    FinalFile :=
  if num_of_spectra ≠ scan_count then
    update_spectra_count tmp_lines num_of_spectra scan_count
  else
    { content := tmp_lines, tmp_removed := true, renamed := true }

/-- End of the `combined` branch of `write_maldi_dd_mzml` (lines 649-650):
`update_spectra_count` is called unconditionally, even when the counts agree. -/
def finalize_maldi_dd_combined (tmp_lines : List (List Char)) (num_of_spectra scan_count : Nat) :
    FinalFile :=
  update_spectra_count tmp_lines num_of_spectra scan_count

/-! ### OutputTopologyRouter: write_maldi_dd_mzml dispatch and the plate-map precondition -/

/-- What the body of `write_maldi_dd_mzml` produces, by topology. -/
inductive DdOutcome
  | combined_file
  | per_spot_files
  | per_sample_files
  | did_nothing
deriving DecidableEq, Repr

/-- The topology dispatch of `write_maldi_dd_mzml` (lines 580, 654-656,
723-725).  `pm_on_disk` stands for `os.path.exists(plate_map)` and `pm_is_csv`
for `os.path.splitext(plate_map)[1] == '.csv'`.  There is no `else` branch
anywhere in the source: an empty, missing or non-CSV plate map under
`individual`/`sample` makes the function fall through without writing anything
and without raising. -/
def write_maldi_dd_mzml_dispatch (maldi_output_file plate_map : String)
    (pm_on_disk pm_is_csv : Bool) : DdOutcome :=
  if maldi_output_file = "combined" then DdOutcome.combined_file
  else if maldi_output_file = "individual" ∧ plate_map ≠ "" then
    if pm_on_disk ∧ pm_is_csv then DdOutcome.per_spot_files else DdOutcome.did_nothing
  else if maldi_output_file = "sample" ∧ plate_map ≠ "" then
    if pm_on_disk ∧ pm_is_csv then DdOutcome.per_sample_files else DdOutcome.did_nothing
  else DdOutcome.did_nothing

def plate_map_error : String := "plate map is required for MALDI dried droplet data"

/-- Modelled from the spec: `args_check`, invoked from `bin/run.py` line 46, is
part of this repository but its definition is not under `src/`.  Per the spec
(§4.4: "Missing or invalid plate map for `individual`/`sample` topology is a
fatal precondition failure for the job, not a per-record failure", and §7:
"fatal failures stop the run for the current input file immediately with a
clear message identifying the missing precondition"), the argument check
rejects an `individual`/`sample` job whose plate map path is empty, absent from
disk, or not a `.csv` file, before any writing starts. -/
def args_check_plate_map (maldi_output_file plate_map : String)
    (pm_on_disk pm_is_csv : Bool) : Except String Unit :=
  if (maldi_output_file = "individual" ∨ maldi_output_file = "sample") ∧
      (plate_map = "" ∨ pm_on_disk = false ∨ pm_is_csv = false) then
    Except.error plate_map_error
  else
    Except.ok ()

/-- A MALDI dried-droplet conversion job as run from `bin/run.py`:
`args_check` first (line 46), then the writer. -/
def run_maldi_dd_job (maldi_output_file plate_map : String)
    (pm_on_disk pm_is_csv : Bool) : Except String DdOutcome :=
  match args_check_plate_map maldi_output_file plate_map pm_on_disk pm_is_csv with
  | Except.error e => Except.error e
  | Except.ok _ =>
    Except.ok (write_maldi_dd_mzml_dispatch maldi_output_file plate_map pm_on_disk pm_is_csv)

/-- Reference shape: the write sequence of a loop that writes every record,
numbering consecutively from `scan_count + 1`. -/
def number_from (scan_count : Nat) : List ScanRecord → List (Nat × ScanRecord)
  | [] => []
  | s :: rest => (scan_count + 1, s) :: number_from (scan_count + 1) rest

/-- Reference shape: the record order produced by branch 1 of
`write_lcms_chunk_to_mzml` — each parent followed by the products whose
`parent_frame` matches it. -/
def interleave_products (product_scans : List ScanRecord) : List ScanRecord → List ScanRecord
  | [] => []
  | p :: ps =>
    p :: product_scans.filter (fun i => i.parent_frame == p.frame)
      ++ interleave_products product_scans ps

end Timsconvert

namespace Timsconvert

/-! ## Lemmas about the chunk-planning loop -/

theorem zip_take_eq (n : Nat) : ∀ xs ys : List Int,
    (List.zip xs ys).take n = List.zip (xs.take n) (ys.take n) := by
  induction n with
  | zero => intro xs ys; simp
  | succ n ih =>
    intro xs ys
    cases xs with
    | nil => simp
    | cons a xs =>
      cases ys with
      | nil => simp
      | cons b ys => simp [List.zip_cons_cons, ih]

theorem adj_pairs_eq_zip : ∀ xs : List Int, adj_pairs xs = List.zip xs xs.tail
  | [] => rfl
  | [_] => rfl
  | a :: b :: t => by
    simp only [adj_pairs, List.tail_cons, List.zip_cons_cons]
    rw [adj_pairs_eq_zip (b :: t)]
    rfl

theorem adj_pairs_tail : ∀ xs : List Int, adj_pairs xs.tail = (adj_pairs xs).tail
  | [] => rfl
  | [_] => rfl
  | _ :: _ :: _ => rfl

theorem adj_pairs_drop (k : Nat) :
    ∀ xs : List Int, adj_pairs (xs.drop k) = (adj_pairs xs).drop k := by
  induction k with
  | zero => intro xs; simp
  | succ k ih =>
    intro xs
    have h1 : xs.drop (k + 1) = (xs.drop k).tail := (List.tail_drop xs k).symm
    have h2 : (adj_pairs xs).drop (k + 1) = ((adj_pairs xs).drop k).tail :=
      (List.tail_drop (adj_pairs xs) k).symm
    rw [h1, h2, adj_pairs_tail, ih]

theorem zip_take_pred : ∀ s : List Int,
    List.zip (s.take (s.length - 1)) s.tail = List.zip s s.tail
  | [] => rfl
  | [_] => rfl
  | a :: b :: t => by
    simp only [List.length_cons, List.tail_cons]
    have h : a :: b :: t = a :: (b :: t) := rfl
    rw [show t.length + 1 + 1 - 1 = (b :: t).length - 1 + 1 by simp]
    rw [List.take_succ_cons, List.zip_cons_cons, List.zip_cons_cons]
    rw [show ((b :: t).take ((b :: t).length - 1)).zip t =
        ((b :: t).take ((b :: t).length - 1)).zip (b :: t).tail from rfl]
    rw [zip_take_pred (b :: t)]
    rfl

theorem slice_pairs_while_eq (frames : List Int) (c chunk : Nat) :
    slice_pairs_while frames c chunk = (adj_pairs (frames.drop chunk)).take c := by
  rw [slice_pairs_while, adj_pairs_eq_zip, zip_take_eq, List.tail_drop]

theorem slice_pairs_final_eq (frames : List Int) (chunk : Nat) :
    slice_pairs_final frames chunk = adj_pairs (frames.drop chunk) := by
  rw [slice_pairs_final, List.drop_take, adj_pairs_eq_zip]
  rw [show frames.drop (chunk + 1) = (frames.drop chunk).tail from (List.tail_drop frames chunk).symm]
  rw [show frames.length - 1 - chunk = (frames.drop chunk).length - 1 by
    rw [List.length_drop]; omega]
  exact zip_take_pred (frames.drop chunk)

theorem getLast?_cons_of_ne_nil {α : Type} (a : α) (l : List α) (h : l ≠ []) :
    (a :: l).getLast? = l.getLast? := by
  cases l with
  | nil => exact absurd rfl h
  | cons b t => exact List.getLast?_cons_cons

theorem getLast?_drop_of_lt (c : Nat) : ∀ s : List Int, c < s.length →
    (s.drop c).getLast? = s.getLast? := by
  induction c with
  | zero => intro s _; rfl
  | succ c ih =>
    intro s h
    cases s with
    | nil => simp at h
    | cons a t =>
      have h' : c < t.length := by simp at h; omega
      have hne : t ≠ [] := by
        intro he
        rw [he] at h'
        simp at h'
      rw [List.drop_succ_cons, ih t h', getLast?_cons_of_ne_nil a t hne]

theorem adj_pairs_getLast : ∀ s : List Int, 2 ≤ s.length →
    ∃ pr : Int × Int, (adj_pairs s).getLast? = some pr ∧ some pr.2 = s.getLast?
  | a :: b :: t, _ => by
    cases t with
    | nil => exact ⟨(a, b), rfl, rfl⟩
    | cons c u =>
      obtain ⟨pr, h1, h2⟩ := adj_pairs_getLast (b :: c :: u) (by simp)
      refine ⟨pr, ?_, ?_⟩
      · rw [show adj_pairs (a :: b :: c :: u) = (a, b) :: (b, c) :: adj_pairs (c :: u) from rfl,
          List.getLast?_cons_cons]
        exact h1
      · rw [List.getLast?_cons_cons]
        exact h2

theorem adj_pairs_take_getLast : ∀ (c : Nat) (s : List Int), 1 ≤ c → c + 1 ≤ s.length →
    ∃ pr : Int × Int, ((adj_pairs s).take c).getLast? = some pr ∧
      some pr.2 = (s.drop c).head? := by
  intro c
  induction c with
  | zero => intro s h; omega
  | succ c ih =>
    intro s _ hlen
    match s, hlen with
    | a :: b :: t, hlen =>
      cases Nat.eq_zero_or_pos c with
      | inl hc0 =>
        subst hc0
        exact ⟨(a, b), rfl, rfl⟩
      | inr hcpos =>
        have hlen' : c + 1 ≤ (b :: t).length := by simp at hlen ⊢; omega
        obtain ⟨pr, h1, h2⟩ := ih (b :: t) hcpos hlen'
        have hne : (adj_pairs (b :: t)).take c ≠ [] := by
          intro he
          rw [he] at h1
          simp at h1
        refine ⟨pr, ?_, ?_⟩
        · rw [show adj_pairs (a :: b :: t) = (a, b) :: adj_pairs (b :: t) from rfl,
            List.take_succ_cons, getLast?_cons_of_ne_nil _ _ hne]
          exact h1
        · rw [List.drop_succ_cons]
          exact h2

/-- Characterization of the chunk-planning loop on a remainder of length ≥ 1:
from loop state `(chunk, j0)` satisfying the loop invariant (either at least two
frames remain, or exactly one remains and `j0` holds it), the loop completes and
emits every adjacent pair of the remaining frames followed by
`(last frame, num_frames + 1)`. -/
theorem plan_chunks_loop_spec (frames : List Int) (csize : Nat) (nf : Int) (hc : 1 ≤ csize) :
    ∀ (fuel chunk : Nat) (j0 : Option Int),
      frames.length < fuel + chunk →
      (chunk + 2 ≤ frames.length ∨
        (chunk + 1 = frames.length ∧ j0 = (frames.drop chunk).head?)) →
      plan_chunks_loop frames csize nf fuel chunk j0 =
        some (adj_pairs (frames.drop chunk) ++
          [((frames.drop chunk).getLast?.getD 0, nf + 1)]) := by
  intro fuel
  induction fuel with
  | zero =>
    intro chunk j0 hfuel hinv
    exfalso
    rcases hinv with h | ⟨h, _⟩ <;> omega
  | succ fuel ih =>
    intro chunk j0 hfuel hinv
    rw [plan_chunks_loop]
    have hdlen : (frames.drop chunk).length = frames.length - chunk := List.length_drop ..
    by_cases hguard : chunk + csize + 1 ≤ frames.length
    · rw [if_pos hguard]
      obtain ⟨pr, hpr, hpr2⟩ :=
        adj_pairs_take_getLast csize (frames.drop chunk) hc (by omega)
      have hdd : (frames.drop chunk).drop csize = frames.drop (chunk + csize) := by
        rw [List.drop_drop]
      have hlast : last_j (slice_pairs_while frames csize chunk) j0 =
          (frames.drop (chunk + csize)).head? := by
        rw [last_j, slice_pairs_while_eq, hpr, ← hdd]
        exact hpr2
      have hstep : plan_chunks_loop frames csize nf fuel (chunk + csize)
          (last_j (slice_pairs_while frames csize chunk) j0) =
          some (adj_pairs (frames.drop (chunk + csize)) ++
            [((frames.drop (chunk + csize)).getLast?.getD 0, nf + 1)]) := by
        apply ih (chunk + csize) _ (by omega)
        by_cases h2 : chunk + csize + 2 ≤ frames.length
        · exact Or.inl h2
        · exact Or.inr ⟨by omega, hlast⟩
      rw [hstep]
      rw [Option.map_some']
      congr 1
      rw [← List.append_assoc, slice_pairs_while_eq, ← hdd]
      have hsplit : (adj_pairs (frames.drop chunk)).take csize ++
          adj_pairs ((frames.drop chunk).drop csize) = adj_pairs (frames.drop chunk) := by
        rw [adj_pairs_drop csize (frames.drop chunk), List.take_append_drop]
      rw [hsplit]
      have hlasteq : ((frames.drop chunk).drop csize).getLast? =
          (frames.drop chunk).getLast? :=
        getLast?_drop_of_lt csize (frames.drop chunk) (by omega)
      rw [hlasteq]
    · rw [if_neg hguard]
      rcases hinv with h2 | ⟨h1, hj⟩
      · obtain ⟨pr, hpr, hpr2⟩ := adj_pairs_getLast (frames.drop chunk) (by omega)
        have hl : last_j (adj_pairs (frames.drop chunk)) j0 = some pr.2 := by
          rw [last_j, hpr]
        rw [slice_pairs_final_eq, hl]
        have hgd : (frames.drop chunk).getLast?.getD 0 = pr.2 := by
          rw [← hpr2]
          rfl
        rw [hgd]
      · have hlen1 : (frames.drop chunk).length = 1 := by omega
        obtain ⟨x, hx⟩ := List.length_eq_one.mp hlen1
        have hjx : j0 = some x := by rw [hj, hx]; rfl
        have hl : last_j (adj_pairs (frames.drop chunk)) j0 = some x := by
          rw [hx]
          simp [last_j, adj_pairs, hjx]
        rw [slice_pairs_final_eq, hl, hx]
        simp [adj_pairs]

/-- On any frame list of length ≥ 2 and `chunk_size ≥ 1`, the loop completes and
emits exactly the adjacent pairs of the list followed by
`(last id, num_frames + 1)`. -/
theorem plan_chunks_eq (frames : List Int) (csize : Nat) (nf : Int)
    (hc : 1 ≤ csize) (h2 : 2 ≤ frames.length) :
    plan_chunks frames csize nf = some (ranges_of frames nf) := by
  have h := plan_chunks_loop_spec frames csize nf hc (frames.length + 1) 0 none
    (by omega) (Or.inl (by omega))
  rw [plan_chunks, h]
  rfl

/-- On a frame list of length 0 or 1 (any `chunk_size ≥ 1`) the loop does not
complete normally: the final-chunk `zip` is empty, so `j` is never bound and
`chunk_list.append((j, ...))` raises `NameError` in the source (`none` here). -/
theorem plan_chunks_short (frames : List Int) (csize : Nat) (nf : Int)
    (hc : 1 ≤ csize) (h1 : frames.length ≤ 1) :
    plan_chunks frames csize nf = none := by
  match frames, h1 with
  | [], _ =>
    rw [plan_chunks, plan_chunks_loop]
    rw [if_neg (by simp only [List.length_nil]; omega)]
    rfl
  | [a], _ =>
    rw [plan_chunks, plan_chunks_loop]
    rw [if_neg (by simp only [List.length_cons, List.length_nil]; omega)]
    rfl

theorem ranges_of_cons (a b : Int) (t : List Int) (cap : Int) :
    ranges_of (a :: b :: t) cap = (a, b) :: ranges_of (b :: t) cap := by
  rw [ranges_of, ranges_of,
    show adj_pairs (a :: b :: t) = (a, b) :: adj_pairs (b :: t) from rfl,
    List.getLast?_cons_cons]
  rfl

theorem ranges_map_fst : ∀ s : List Int, s ≠ [] → ∀ cap : Int,
    (ranges_of s cap).map Prod.fst = s
  | [], h => absurd rfl h
  | [_], _ => fun _ => rfl
  | a :: b :: t, _ => by
    intro cap
    rw [ranges_of_cons, List.map_cons, ranges_map_fst (b :: t) (by simp) cap]

theorem ranges_head_fst : ∀ (b : Int) (t : List Int) (cap : Int) (q : Int × Int),
    (ranges_of (b :: t) cap).head? = some q → b = q.1 := by
  intro b t cap q hq
  cases t with
  | nil =>
    rw [show ranges_of [b] cap = [(b, cap + 1)] from rfl] at hq
    simp at hq
    rw [← hq]
  | cons c u =>
    rw [ranges_of_cons] at hq
    simp at hq
    rw [← hq]

theorem ranges_chain : ∀ s : List Int, s ≠ [] → ∀ cap : Int,
    List.Chain' (fun p q : Int × Int => p.2 = q.1) (ranges_of s cap)
  | [], h => absurd rfl h
  | [a], _ => fun cap => by
    rw [show ranges_of [a] cap = [(a, cap + 1)] from rfl]
    exact List.chain'_singleton _
  | a :: b :: t, _ => fun cap => by
    rw [ranges_of_cons]
    refine List.chain'_cons'.mpr ⟨?_, ranges_chain (b :: t) (by simp) cap⟩
    intro q hq
    exact ranges_head_fst b t cap q hq

theorem ranges_start_lt_stop : ∀ s : List Int, s.Pairwise (· < ·) →
    ∀ cap : Int, s.getLast?.getD 0 ≤ cap →
    ∀ r ∈ ranges_of s cap, r.1 < r.2
  | [], _ => fun cap hcap r hr => by
    rw [show ranges_of [] cap = [(0, cap + 1)] from rfl] at hr
    simp at hr
    simp at hcap
    rw [hr]
    simp
    omega
  | [a], _ => fun cap hcap r hr => by
    rw [show ranges_of [a] cap = [(a, cap + 1)] from rfl] at hr
    simp at hr
    simp at hcap
    rw [hr]
    simp
    omega
  | a :: b :: t, hp => fun cap hcap r hr => by
    rw [ranges_of_cons] at hr
    rw [List.pairwise_cons] at hp
    rcases List.mem_cons.mp hr with hr | hr
    · rw [hr]
      exact hp.1 b (by simp)
    · refine ranges_start_lt_stop (b :: t) hp.2 cap ?_ r hr
      rw [List.getLast?_cons_cons] at hcap
      exact hcap

theorem ranges_count : ∀ s : List Int, s.Pairwise (· < ·) →
    ∀ cap : Int, s.getLast?.getD 0 ≤ cap →
    ∀ x ∈ s, (ranges_of s cap).countP (fun r => decide (r.1 ≤ x ∧ x < r.2)) = 1
  | [], _ => fun _ _ x hx => absurd hx (by simp)
  | [a], _ => fun cap hcap x hx => by
    simp at hx
    simp at hcap
    subst hx
    rw [show ranges_of [x] cap = [(x, cap + 1)] from rfl]
    rw [List.countP_cons, List.countP_nil]
    rw [if_pos (by rw [decide_eq_true_eq]; exact ⟨le_refl x, by omega⟩)]
  | a :: b :: t, hp => fun cap hcap x hx => by
    rw [ranges_of_cons, List.countP_cons]
    rw [List.pairwise_cons] at hp
    rw [List.getLast?_cons_cons] at hcap
    rcases List.mem_cons.mp hx with hxa | hxbt
    · subst hxa
      have hz : (ranges_of (b :: t) cap).countP
          (fun r => decide (r.1 ≤ x ∧ x < r.2)) = 0 := by
        rw [List.countP_eq_zero]
        intro r hr
        have hfst : r.1 ∈ b :: t := by
          have := List.mem_map_of_mem Prod.fst hr
          rw [ranges_map_fst (b :: t) (by simp) cap] at this
          exact this
        have : x < r.1 := hp.1 r.1 hfst
        simp only [decide_eq_true_eq]
        intro hcontra
        omega
      rw [hz]
      rw [if_pos (by rw [decide_eq_true_eq]; exact ⟨le_refl x, hp.1 b (by simp)⟩)]
    · have hbx : b ≤ x := by
        rcases List.mem_cons.mp hxbt with h | h
        · omega
        · have hbp := List.pairwise_cons.mp hp.2
          have := hbp.1 x h
          omega
      rw [if_neg (by simp only [decide_eq_true_eq]; intro hcontra; omega)]
      rw [ranges_count (b :: t) hp.2 cap hcap x hxbt]

/-- Claim C1, amended: for every ascending list of unique frame identifiers *of
length at least 2* whose last identifier does not exceed the frame-table row
count, and every `chunk_size ≥ 1`, the `(frame_start, frame_stop)` ranges
produced by the chunk-planning loop start exactly at the input identifiers in
input order, are contiguous (each range's stop equals the next range's start,
hence ascending and non-overlapping), have `start < stop`, and cover every
identifier exactly once as half-open intervals.  (The original claim, quantified
over *every* ascending list, fails at singleton input, where the loop raises
`NameError`; see the counterexample.) -/
theorem claim_C1_chunk_ranges_cover (frames : List Int) (chunk_size : Nat) (num_frames : Int)
    (hsort : frames.Pairwise (· < ·)) (hc : 1 ≤ chunk_size) (h2 : 2 ≤ frames.length)
    (hcap : frames.getLast?.getD 0 ≤ num_frames) :
    ∃ rs, plan_chunks frames chunk_size num_frames = some rs ∧
      rs.map Prod.fst = frames ∧
      List.Chain' (fun p q : Int × Int => p.2 = q.1) rs ∧
      (∀ r ∈ rs, r.1 < r.2) ∧
      (∀ x ∈ frames, rs.countP (fun r => decide (r.1 ≤ x ∧ x < r.2)) = 1) := by
  have hne : frames ≠ [] := by
    intro he
    rw [he] at h2
    simp at h2
  exact ⟨ranges_of frames num_frames,
    plan_chunks_eq frames chunk_size num_frames hc h2,
    ranges_map_fst frames hne num_frames,
    ranges_chain frames hne num_frames,
    ranges_start_lt_stop frames hsort num_frames hcap,
    ranges_count frames hsort num_frames hcap⟩

/-- Claim C1, counterexample: for the ascending singleton id list `[1]` with
`chunk_size = 1` the loop produces no range list at all (the source raises
`NameError` on the unbound `j`), so the identifier `1` is not covered. -/
theorem claim_C1_counterexample :
    plan_chunks [1] 1 1 = none ∧
    ¬ ∃ rs, plan_chunks [1] 1 1 = some rs ∧
        ∀ x ∈ ([1] : List Int), rs.countP (fun r => decide (r.1 ≤ x ∧ x < r.2)) = 1 := by
  refine ⟨by decide, ?_⟩
  rintro ⟨rs, hrs, -⟩
  have hnone : plan_chunks [1] 1 1 = none := by decide
  rw [hnone] at hrs
  exact Option.noConfusion hrs

/-- Claim C1, witness: the amended theorem applied to the concrete ascending
list `[1, 2]` with `chunk_size = 1` and frame-table row count 2. -/
theorem claim_C1_witness :
    ∃ rs, plan_chunks [1, 2] 1 2 = some rs ∧
      rs.map Prod.fst = [1, 2] ∧
      List.Chain' (fun p q : Int × Int => p.2 = q.1) rs ∧
      (∀ r ∈ rs, r.1 < r.2) ∧
      (∀ x ∈ ([1, 2] : List Int), rs.countP (fun r => decide (r.1 ≤ x ∧ x < r.2)) = 1) :=
  claim_C1_chunk_ranges_cover [1, 2] 1 2 (by decide) (by decide) (by decide) (by decide)

/-- Claim C4, counterexample: for 10 MS1 frames with ids 1..10 and
`chunk_size = 3` the loop does **not** emit the boundaries
`(1,4),(4,7),(7,10),(10,11)` stated by the claim. -/
theorem claim_C4_counterexample :
    ¬ plan_chunks [1, 2, 3, 4, 5, 6, 7, 8, 9, 10] 3 10 =
      some [(1, 4), (4, 7), (7, 10), (10, 11)] := by
  decide

/-- Claim C4, amended: for 10 MS1 frames with ids 1..10 and `chunk_size = 3`,
every emitted range spans two *adjacent* identifiers (one apart, not
`chunk_size` apart); the loop emits exactly
`(1,2),(2,3),(3,4),(4,5),(5,6),(6,7),(7,8),(8,9),(9,10),(10,11)`, processed in
batches of `chunk_size` ranges (so the batches begin at frames 1, 4, 7 and 10,
which is where the claimed boundaries come from). -/
theorem claim_C4_chunk_boundaries :
    plan_chunks [1, 2, 3, 4, 5, 6, 7, 8, 9, 10] 3 10 =
      some [(1, 2), (2, 3), (3, 4), (4, 5), (5, 6), (6, 7), (7, 8), (8, 9), (9, 10), (10, 11)] := by
  decide

/-- Claim C8: contrary to the claim, an input MS1 frame-id list of size 0 or 1
(any `chunk_size ≥ 1`) does not produce zero ranges or a degenerate range: the
final-chunk `zip` is empty, `j` is never bound, and
`chunk_list.append((j, ...))` raises `NameError` in the source (modelled as
`none`).  The claim describes the intended graceful behavior; the code crashes
on this edge case. -/
theorem claim_C8_short_input_crashes (frames : List Int) (chunk_size : Nat) (num_frames : Int)
    (hc : 1 ≤ chunk_size) (h1 : frames.length ≤ 1) :
    plan_chunks frames chunk_size num_frames = none :=
  plan_chunks_short frames chunk_size num_frames hc h1

/-- Claim C8, witness: the empty list and the singleton list `[7]`. -/
theorem claim_C8_witness :
    plan_chunks [] 1 0 = none ∧ plan_chunks [7] 2 1 = none :=
  ⟨claim_C8_short_input_crashes [] 1 0 (by decide) (by decide),
   claim_C8_short_input_crashes [7] 2 1 (by decide) (by decide)⟩

/-! ## Lemmas about scan numbering -/

theorem number_from_append (l1 : List ScanRecord) : ∀ (c : Nat) (l2 : List ScanRecord),
    number_from c (l1 ++ l2) = number_from c l1 ++ number_from (c + l1.length) l2 := by
  induction l1 with
  | nil => intro c l2; simp [number_from]
  | cons s l1 ih =>
    intro c l2
    rw [List.cons_append, number_from, number_from, ih (c + 1) l2, List.cons_append]
    have harith : c + (s :: l1).length = c + 1 + l1.length := by
      rw [List.length_cons]
      omega
    rw [harith]

theorem number_from_length (l : List ScanRecord) : ∀ c : Nat,
    (number_from c l).length = l.length := by
  induction l with
  | nil => intro c; rfl
  | cons s l ih => intro c; rw [number_from, List.length_cons, List.length_cons, ih]

theorem number_from_map_fst (l : List ScanRecord) : ∀ c : Nat,
    (number_from c l).map Prod.fst = List.range' (c + 1) l.length := by
  induction l with
  | nil => intro c; rfl
  | cons s l ih =>
    intro c
    rw [number_from, List.map_cons, List.length_cons, List.range'_succ, ih (c + 1)]

theorem number_from_map_snd (l : List ScanRecord) : ∀ c : Nat,
    (number_from c l).map Prod.snd = l := by
  induction l with
  | nil => intro c; rfl
  | cons s l ih =>
    intro c
    rw [number_from, List.map_cons, ih (c + 1)]

theorem foldl_push_write (l : List ScanRecord) : ∀ (c : Nat) (out : List (Nat × ScanRecord)),
    l.foldl push_write (c, out) = (c + l.length, out ++ number_from c l) := by
  induction l with
  | nil => intro c out; simp [number_from]
  | cons s l ih =>
    intro c out
    rw [List.foldl_cons,
      show push_write (c, out) s = (c + 1, out ++ [(c + 1, s)]) from rfl, ih]
    rw [number_from, List.length_cons, List.append_assoc, List.singleton_append]
    congr 1
    omega

theorem foldl_push_write_leveled (l : List ScanRecord)
    (hl : ∀ s ∈ l, s.ms_level = 1 ∨ s.ms_level = 2) :
    ∀ (c : Nat) (out : List (Nat × ScanRecord)),
    l.foldl push_write_leveled (c, out) = (c + l.length, out ++ number_from c l) := by
  induction l with
  | nil => intro c out; simp [number_from]
  | cons s l ih =>
    intro c out
    have hstep : push_write_leveled (c, out) s = (c + 1, out ++ [(c + 1, s)]) := by
      rcases hl s (by simp) with h | h <;> simp [push_write_leveled, h]
    rw [List.foldl_cons, hstep, ih (fun s hs => hl s (by simp [hs]))]
    rw [number_from, List.length_cons, List.append_assoc, List.singleton_append]
    congr 1
    omega

theorem write_parent_with_products_eq (qs : List ScanRecord) (p : ScanRecord)
    (c : Nat) (out : List (Nat × ScanRecord)) :
    write_parent_with_products qs (c, out) p =
      (c + (p :: qs.filter (fun i => i.parent_frame == p.frame)).length,
       out ++ number_from c (p :: qs.filter (fun i => i.parent_frame == p.frame))) := by
  rw [write_parent_with_products,
    show push_write (c, out) p = (c + 1, out ++ [(c + 1, p)]) from rfl,
    foldl_push_write]
  rw [number_from, List.length_cons, List.append_assoc, List.singleton_append]
  congr 1
  omega

theorem foldl_write_parent_with_products (qs : List ScanRecord) : ∀ (ps : List ScanRecord)
    (c : Nat) (out : List (Nat × ScanRecord)),
    ps.foldl (write_parent_with_products qs) (c, out) =
      (c + (interleave_products qs ps).length,
       out ++ number_from c (interleave_products qs ps)) := by
  intro ps
  induction ps with
  | nil => intro c out; simp [interleave_products, number_from]
  | cons p ps ih =>
    intro c out
    rw [List.foldl_cons, write_parent_with_products_eq, ih]
    rw [show interleave_products qs (p :: ps) =
      (p :: qs.filter (fun i => i.parent_frame == p.frame)) ++ interleave_products qs ps from rfl]
    rw [number_from_append, List.length_append, List.append_assoc]
    congr 1
    omega

theorem write_lcms_chunk_branch1 (ps qs : List ScanRecord) (c : Nat) (hqs : qs ≠ []) :
    write_lcms_chunk_to_mzml false ps qs c =
      (c + (interleave_products qs ps).length, number_from c (interleave_products qs ps)) := by
  rw [write_lcms_chunk_to_mzml, if_pos (by exact ⟨by simp, hqs⟩),
    foldl_write_parent_with_products]
  rw [List.nil_append]

theorem write_lcms_chunk_spec (flag : Bool) (ps qs : List ScanRecord) (c : Nat)
    (hlvl : ∀ s ∈ ps, s.ms_level = 1 ∨ s.ms_level = 2) :
    ∃ L : List ScanRecord,
      write_lcms_chunk_to_mzml flag ps qs c = (c + L.length, number_from c L) := by
  rw [write_lcms_chunk_to_mzml]
  by_cases h1 : ¬ flag ∧ qs ≠ []
  · rw [if_pos h1, foldl_write_parent_with_products]
    exact ⟨interleave_products qs ps, by rw [List.nil_append]⟩
  · rw [if_neg h1]
    by_cases h2 : flag = true ∨ ps = []
    · rw [if_pos h2, foldl_push_write]
      exact ⟨qs, by rw [List.nil_append]⟩
    · rw [if_neg h2]
      by_cases h3 : qs = []
      · rw [if_pos h3, foldl_push_write_leveled ps hlvl]
        exact ⟨ps, by rw [List.nil_append]⟩
      · rw [if_neg h3]
        exact ⟨[], by simp [number_from]⟩

theorem write_lcms_chunks_spec (flag : Bool) :
    ∀ chunks : List (List ScanRecord × List ScanRecord),
    (∀ ch ∈ chunks, ∀ s ∈ ch.1, s.ms_level = 1 ∨ s.ms_level = 2) →
    ∀ (c : Nat) (out : List (Nat × ScanRecord)),
    ∃ L : List ScanRecord,
      chunks.foldl
        (fun acc ch =>
          let r := write_lcms_chunk_to_mzml flag ch.1 ch.2 acc.1
          (r.1, acc.2 ++ r.2)) (c, out) =
      (c + L.length, out ++ number_from c L) := by
  intro chunks
  induction chunks with
  | nil =>
    intro _ c out
    exact ⟨[], by simp [number_from]⟩
  | cons ch chunks ih =>
    intro hlvl c out
    obtain ⟨L1, hL1⟩ := write_lcms_chunk_spec flag ch.1 ch.2 c (hlvl ch (by simp))
    obtain ⟨L2, hL2⟩ := ih (fun ch2 h2 => hlvl ch2 (by simp [h2])) (c + L1.length)
      (out ++ number_from c L1)
    refine ⟨L1 ++ L2, ?_⟩
    rw [List.foldl_cons]
    simp only [hL1]
    rw [hL2, number_from_append, List.length_append, ← List.append_assoc]
    congr 1
    omega

theorem maldi_combined_loop_spec (flag : Bool) :
    ∀ l : List ScanRecord,
    (∀ s ∈ l, s.ms_level = 1 ∨ s.ms_level = 2) →
    ∀ (c : Nat) (out : List (Nat × ScanRecord)),
    ∃ L : List ScanRecord,
      l.foldl
        (fun acc s => if flag ∧ s.ms_level = 1 then acc else push_write_leveled acc s)
        (c, out) = (c + L.length, out ++ number_from c L) := by
  intro l
  induction l with
  | nil =>
    intro _ c out
    exact ⟨[], by simp [number_from]⟩
  | cons s l ih =>
    intro hlvl c out
    rw [List.foldl_cons]
    by_cases hskip : flag = true ∧ s.ms_level = 1
    · rw [if_pos hskip]
      exact ih (fun r hr => hlvl r (by simp [hr])) c out
    · rw [if_neg hskip]
      have hstep : push_write_leveled (c, out) s = (c + 1, out ++ [(c + 1, s)]) := by
        rcases hlvl s (by simp) with h | h <;> simp [push_write_leveled, h]
      rw [hstep]
      obtain ⟨L, hL⟩ := ih (fun r hr => hlvl r (by simp [hr])) (c + 1) (out ++ [(c + 1, s)])
      refine ⟨s :: L, ?_⟩
      rw [hL, number_from, List.length_cons, List.append_assoc, List.singleton_append]
      congr 1
      omega

/-- Claim C2: for every sequence of scan records written to one output file —
the chunked LC-MS path (any chunking and parent/product interleaving) and the
MALDI dried-droplet combined path — the `scan_number` values assigned at write
time are exactly `1..N` in write order (no gaps, no duplicates, no reordering),
and the returned `scan_count` equals the number of written spectra.  Records
have `ms_level` 1 or 2, as the spec's data model fixes. -/
theorem claim_C2_scan_numbering (ms2_only : Bool)
    (chunks : List (List ScanRecord × List ScanRecord))
    (list_of_scan_dicts : List ScanRecord)
    (hchunks : ∀ ch ∈ chunks, ∀ s ∈ ch.1, s.ms_level = 1 ∨ s.ms_level = 2)
    (hscans : ∀ s ∈ list_of_scan_dicts, s.ms_level = 1 ∨ s.ms_level = 2) :
    ((write_lcms_chunks ms2_only chunks).2.map Prod.fst
        = List.range' 1 (write_lcms_chunks ms2_only chunks).2.length ∧
      (write_lcms_chunks ms2_only chunks).1 = (write_lcms_chunks ms2_only chunks).2.length) ∧
    ((write_maldi_dd_combined_loop ms2_only list_of_scan_dicts).2.map Prod.fst
        = List.range' 1 (write_maldi_dd_combined_loop ms2_only list_of_scan_dicts).2.length ∧
      (write_maldi_dd_combined_loop ms2_only list_of_scan_dicts).1
        = (write_maldi_dd_combined_loop ms2_only list_of_scan_dicts).2.length) := by
  constructor
  · obtain ⟨L, hL⟩ := write_lcms_chunks_spec ms2_only chunks hchunks 0 []
    rw [write_lcms_chunks, hL]
    simp only [List.nil_append]
    constructor
    · rw [number_from_map_fst, number_from_length]
    · rw [number_from_length]
      omega
  · obtain ⟨L, hL⟩ := maldi_combined_loop_spec ms2_only list_of_scan_dicts hscans 0 []
    rw [write_maldi_dd_combined_loop, hL]
    simp only [List.nil_append]
    constructor
    · rw [number_from_map_fst, number_from_length]
    · rw [number_from_length]
      omega

/-- Claim C2, witness: one LC-MS chunk with one parent and one matching product,
and one MALDI record list of two records, under `ms2_only = false`. -/
theorem claim_C2_witness :
    ((write_lcms_chunks false
        [([{ frame := 1 }], [{ parent_frame := 1, ms_level := 2 }])]).2.map Prod.fst
      = List.range' 1 (write_lcms_chunks false
          [([{ frame := 1 }], [{ parent_frame := 1, ms_level := 2 }])]).2.length ∧
     (write_lcms_chunks false
        [([{ frame := 1 }], [{ parent_frame := 1, ms_level := 2 }])]).1
      = (write_lcms_chunks false
          [([{ frame := 1 }], [{ parent_frame := 1, ms_level := 2 }])]).2.length) ∧
    ((write_maldi_dd_combined_loop false [{ ms_level := 1 }, { ms_level := 2 }]).2.map Prod.fst
      = List.range' 1
          (write_maldi_dd_combined_loop false [{ ms_level := 1 }, { ms_level := 2 }]).2.length ∧
     (write_maldi_dd_combined_loop false [{ ms_level := 1 }, { ms_level := 2 }]).1
      = (write_maldi_dd_combined_loop false [{ ms_level := 1 }, { ms_level := 2 }]).2.length) :=
  claim_C2_scan_numbering false
    [([{ frame := 1 }], [{ parent_frame := 1, ms_level := 2 }])]
    [{ ms_level := 1 }, { ms_level := 2 }] (by decide) (by decide)

theorem mem_interleave_products (qs : List ScanRecord) : ∀ (ps : List ScanRecord)
    (x : ScanRecord), x ∈ interleave_products qs ps →
    x ∈ ps ∨ ∃ p, p ∈ ps ∧ x.parent_frame = p.frame := by
  intro ps
  induction ps with
  | nil => intro x hx; simp [interleave_products] at hx
  | cons p ps ih =>
    intro x hx
    rw [show interleave_products qs (p :: ps) =
      p :: (qs.filter (fun i => i.parent_frame == p.frame) ++ interleave_products qs ps)
      from rfl] at hx
    rcases List.mem_cons.mp hx with hx | hx
    · left
      rw [hx]
      exact List.mem_cons_self p ps
    · rcases List.mem_append.mp hx with hx | hx
      · right
        refine ⟨p, List.mem_cons_self p ps, ?_⟩
        exact eq_of_beq (List.mem_filter.mp hx).2
      · rcases ih x hx with h | ⟨p2, hp2, hpf⟩
        · exact Or.inl (List.mem_cons_of_mem p h)
        · exact Or.inr ⟨p2, List.mem_cons_of_mem p hp2, hpf⟩

/-- Claim C9, counterexample: with `ms2_only = false`, a non-empty parent list
`[{frame = 1}]` and a non-empty product list containing one product whose
`parent_frame = 2` matches no parent, the chunk writer writes only the parent:
the orphan product is silently absent from the write sequence and no error of
any kind is produced (the source has no raise or report on this path). -/
theorem claim_C9_counterexample :
    (write_lcms_chunk_to_mzml false [{ frame := 1 }]
        [{ parent_frame := 2, ms_level := 2 }] 0).2.map Prod.snd = [{ frame := 1 }] ∧
    ({ parent_frame := 2, ms_level := 2 } : ScanRecord) ∉
      (write_lcms_chunk_to_mzml false [{ frame := 1 }]
        [{ parent_frame := 2, ms_level := 2 }] 0).2.map Prod.snd := by
  decide

/-- Claim C9, amended: in a chunk processed with `ms2_only = false` and
non-empty parent and product lists, a product whose `parent_frame` matches no
parent assembled in the same chunk (and which is not itself one of the parent
records) is silently dropped: it never appears in the written output, and the
code reports no defect (there is no error path). -/
theorem claim_C9_orphan_silently_dropped (ps qs : List ScanRecord) (c : Nat)
    (q : ScanRecord) (hq : q ∈ qs) (_hps : ps ≠ [])
    (horph : ∀ p ∈ ps, q.parent_frame ≠ p.frame) (hnp : q ∉ ps) :
    q ∉ (write_lcms_chunk_to_mzml false ps qs c).2.map Prod.snd := by
  have hqs : qs ≠ [] := by
    intro he
    rw [he] at hq
    simp at hq
  intro hmem
  rw [write_lcms_chunk_branch1 ps qs c hqs] at hmem
  rw [show ((c + (interleave_products qs ps).length,
      number_from c (interleave_products qs ps)) : Nat × List (Nat × ScanRecord)).2
      = number_from c (interleave_products qs ps) from rfl] at hmem
  rw [number_from_map_snd] at hmem
  rcases mem_interleave_products qs ps q hmem with h | ⟨p, hp, hpf⟩
  · exact hnp h
  · exact horph p hp hpf

/-- Claim C9, witness: the amended theorem applied to the concrete orphan
product of the counterexample input. -/
theorem claim_C9_witness :
    ({ parent_frame := 2, ms_level := 2 } : ScanRecord) ∉
      (write_lcms_chunk_to_mzml false [{ frame := 1 }]
        [{ parent_frame := 2, ms_level := 2 }] 0).2.map Prod.snd :=
  claim_C9_orphan_silently_dropped [{ frame := 1 }] [{ parent_frame := 2, ms_level := 2 }] 0
    { parent_frame := 2, ms_level := 2 } (by decide) (by decide) (by decide) (by decide)

/-- Claim C10: in the `individual` branch of `write_maldi_dd_mzml` with
`ms2_only = true`, an `ms_level = 1` record still gets its own output file (one
file per record, opened before the filter), the file declares a spectrum list
count of 1, zero spectra are written to it, and no count reconciliation is
performed (`update_spectra_count` is never called in this branch). -/
theorem claim_C10_individual_ms2_only_empty_file (list_of_scan_dicts : List ScanRecord)
    (scan_dict : ScanRecord) (hmem : scan_dict ∈ list_of_scan_dicts)
    (hlvl : scan_dict.ms_level = 1) :
    (write_maldi_dd_individual true list_of_scan_dicts).length = list_of_scan_dicts.length ∧
    write_maldi_dd_individual_file true scan_dict ∈
      write_maldi_dd_individual true list_of_scan_dicts ∧
    (write_maldi_dd_individual_file true scan_dict).declared_count = 1 ∧
    (write_maldi_dd_individual_file true scan_dict).written = [] ∧
    (write_maldi_dd_individual_file true scan_dict).count_reconciled = false := by
  refine ⟨List.length_map _ _, List.mem_map_of_mem _ hmem, rfl, ?_, rfl⟩
  rw [write_maldi_dd_individual_file]
  simp [hlvl]

/-- Claim C10, witness: a single MS1 record under `ms2_only = true`. -/
theorem claim_C10_witness :
    (write_maldi_dd_individual true [{ ms_level := 1 }]).length = 1 ∧
    write_maldi_dd_individual_file true { ms_level := 1 } ∈
      write_maldi_dd_individual true [{ ms_level := 1 }] ∧
    (write_maldi_dd_individual_file true { ms_level := 1 }).declared_count = 1 ∧
    (write_maldi_dd_individual_file true { ms_level := 1 }).written = [] ∧
    (write_maldi_dd_individual_file true { ms_level := 1 }).count_reconciled = false :=
  claim_C10_individual_ms2_only_empty_file [{ ms_level := 1 }] { ms_level := 1 }
    (by decide) (by decide)

/-- Claim C6: in the precursor block built by `write_ms2_spectrum`, a
`charge_state` of Python `None`, NaN, or integer 0 yields no charge entry, and a
positive integer charge always yields a charge entry with exactly that value. -/
theorem claim_C6_charge_omission (scan : ScanRecord) (parent_scan_number : Option Nat) :
    ((scan.charge_state = ChargeState.unset ∨ scan.charge_state = ChargeState.nan ∨
        scan.charge_state = ChargeState.val 0) →
      (build_precursor_info scan parent_scan_number).charge = none) ∧
    ∀ z : Int, 0 < z → scan.charge_state = ChargeState.val z →
      (build_precursor_info scan parent_scan_number).charge = some z := by
  constructor
  · rintro (h | h | h) <;> simp [build_precursor_info, h]
  · intro z hz h
    have hz0 : z ≠ 0 := by omega
    simp [build_precursor_info, h, hz0]

/-- Claim C6, witness: NaN and zero charges are omitted; charge 2 is written
as exactly 2. -/
theorem claim_C6_witness :
    (build_precursor_info { charge_state := ChargeState.nan, ms_level := 2 } none).charge
      = none ∧
    (build_precursor_info { charge_state := ChargeState.val 0, ms_level := 2 } none).charge
      = none ∧
    (build_precursor_info { charge_state := ChargeState.val 2, ms_level := 2 }
      (some 1)).charge = some 2 :=
  ⟨(claim_C6_charge_omission { charge_state := ChargeState.nan, ms_level := 2 } none).1
      (Or.inr (Or.inl rfl)),
   (claim_C6_charge_omission { charge_state := ChargeState.val 0, ms_level := 2 } none).1
      (Or.inr (Or.inr rfl)),
   (claim_C6_charge_omission { charge_state := ChargeState.val 2, ms_level := 2 }
      (some 1)).2 2 (by decide) rfl⟩

/-! ## Topology dispatch and the plate-map precondition -/

/-- In the code under `src/` alone, `write_maldi_dd_mzml` handles a missing or
invalid plate map under `individual`/`sample` topology by silently doing
nothing: no file is written and no error is raised (there is no `else` branch
and no `raise` in the function). -/
theorem maldi_dispatch_silent_on_bad_plate_map (maldi_output_file plate_map : String)
    (pm_on_disk pm_is_csv : Bool)
    (htop : maldi_output_file = "individual" ∨ maldi_output_file = "sample")
    (hbad : plate_map = "" ∨ pm_on_disk = false ∨ pm_is_csv = false) :
    write_maldi_dd_mzml_dispatch maldi_output_file plate_map pm_on_disk pm_is_csv =
      DdOutcome.did_nothing := by
  have hinner : ∀ h : Prop, ∀ inst : Decidable h,
      (plate_map = "" → ¬ h) →
      (plate_map ≠ "" →
        (if pm_on_disk = true ∧ pm_is_csv = true then DdOutcome.per_spot_files
          else DdOutcome.did_nothing) = DdOutcome.did_nothing ∧
        (if pm_on_disk = true ∧ pm_is_csv = true then DdOutcome.per_sample_files
          else DdOutcome.did_nothing) = DdOutcome.did_nothing) := by
    intro h inst _ hpm
    have hcond : ¬ (pm_on_disk = true ∧ pm_is_csv = true) := by
      rintro ⟨h1, h2⟩
      rcases hbad with hb | hb | hb
      · exact hpm hb
      · rw [hb] at h1
        exact Bool.noConfusion h1
      · rw [hb] at h2
        exact Bool.noConfusion h2
    rw [if_neg hcond, if_neg hcond]
    exact ⟨rfl, rfl⟩
  rcases htop with h | h <;> subst h
  · rw [write_maldi_dd_mzml_dispatch, if_neg (by decide)]
    by_cases hpm : plate_map = ""
    · rw [if_neg (by rintro ⟨-, hne⟩; exact hne hpm),
        if_neg (by rintro ⟨hs, -⟩; exact absurd hs (by decide))]
    · rw [if_pos ⟨rfl, hpm⟩]
      exact (hinner True inferInstance (fun h2 => absurd h2 hpm) hpm).1
  · rw [write_maldi_dd_mzml_dispatch, if_neg (by decide)]
    by_cases hpm : plate_map = ""
    · rw [if_neg (by rintro ⟨hs, -⟩; exact absurd hs (by decide)),
        if_neg (by rintro ⟨-, hne⟩; exact hne hpm)]
    · rw [if_neg (by rintro ⟨hs, -⟩; exact absurd hs (by decide)), if_pos ⟨rfl, hpm⟩]
      exact (hinner True inferInstance (fun h2 => absurd h2 hpm) hpm).2

/-- Claim C5: a MALDI dried-droplet job requesting `individual` or `sample`
topology with a missing or invalid plate map (empty path, file not on disk, or
non-`.csv` extension) fails as a fatal precondition failure before any writing,
with a message naming the missing precondition.  The precondition check lives
in `args_check` (called from `bin/run.py`, defined outside `src/` and modelled
here from the spec); the writer itself would otherwise silently do nothing, see
`maldi_dispatch_silent_on_bad_plate_map`. -/
theorem claim_C5_plate_map_precondition (maldi_output_file plate_map : String)
    (pm_on_disk pm_is_csv : Bool)
    (htop : maldi_output_file = "individual" ∨ maldi_output_file = "sample")
    (hbad : plate_map = "" ∨ pm_on_disk = false ∨ pm_is_csv = false) :
    run_maldi_dd_job maldi_output_file plate_map pm_on_disk pm_is_csv =
      Except.error plate_map_error := by
  rw [run_maldi_dd_job, args_check_plate_map, if_pos ⟨htop, hbad⟩]

/-- Claim C5, witness: an `individual` job with an empty plate-map path, and a
`sample` job whose plate map is not a `.csv` file. -/
theorem claim_C5_witness :
    run_maldi_dd_job "individual" "" true true = Except.error plate_map_error ∧
    run_maldi_dd_job "sample" "plate.txt" true false = Except.error plate_map_error :=
  ⟨claim_C5_plate_map_precondition "individual" "" true true (by decide)
      (Or.inl rfl),
   claim_C5_plate_map_precondition "sample" "plate.txt" true false (by decide)
      (Or.inr (Or.inr rfl))⟩

/-! ## Lemmas about the textual count patch -/

theorem leads_with_iff : ∀ pat s : List Char, leads_with pat s = true ↔ ∃ t, s = pat ++ t
  | [], s => by
    simp only [leads_with, List.nil_append]
    exact ⟨fun _ => ⟨s, rfl⟩, fun _ => trivial⟩
  | _ :: _, [] => by
    simp [leads_with]
  | a :: ps, b :: ss => by
    rw [show leads_with (a :: ps) (b :: ss) = (a == b && leads_with ps ss) from rfl]
    constructor
    · intro h
      rw [Bool.and_eq_true] at h
      obtain ⟨t, ht⟩ := (leads_with_iff ps ss).mp h.2
      have hab : a = b := eq_of_beq h.1
      refine ⟨t, ?_⟩
      rw [← hab, ht]
      rfl
    · rintro ⟨t, ht⟩
      rw [List.cons_append] at ht
      injection ht with h1 h2
      rw [Bool.and_eq_true]
      exact ⟨by rw [h1]; exact beq_self_eq_true a, (leads_with_iff ps ss).mpr ⟨t, h2⟩⟩

theorem occurs_in_eq_false_leads (pat s : List Char) (h : occurs_in pat s = false) :
    leads_with pat s = false := by
  cases s with
  | nil => exact h
  | cons c rest =>
    rw [occurs_in, Bool.or_eq_false_iff] at h
    exact h.1

theorem occurs_in_eq_false_rest (pat : List Char) (c : Char) (rest : List Char)
    (h : occurs_in pat (c :: rest) = false) : occurs_in pat rest = false := by
  rw [occurs_in, Bool.or_eq_false_iff] at h
  exact h.2

theorem replace_loop_no_occurrence (old new : List Char) : ∀ (fuel : Nat) (s : List Char),
    occurs_in old s = false → replace_loop old new fuel s = s := by
  intro fuel
  induction fuel with
  | zero => intro s _; rfl
  | succ fuel ih =>
    intro s h
    cases s with
    | nil => rw [replace_loop, if_neg (by
        rintro ⟨-, hl⟩
        rw [occurs_in_eq_false_leads old [] h] at hl
        exact Bool.noConfusion hl)]
    | cons c rest =>
      rw [replace_loop, if_neg (by
        rintro ⟨-, hl⟩
        rw [occurs_in_eq_false_leads old (c :: rest) h] at hl
        exact Bool.noConfusion hl)]
      rw [ih rest (occurs_in_eq_false_rest old c rest h)]

theorem py_replace_no_occurrence (old new s : List Char) (h : occurs_in old s = false) :
    py_replace old new s = s :=
  replace_loop_no_occurrence old new (s.length + 1) s h

theorem map_py_replace_no_occurrence (old new : List Char) :
    ∀ lines : List (List Char), (∀ l ∈ lines, occurs_in old l = false) →
    lines.map (fun line => py_replace old new line) = lines := by
  intro lines
  induction lines with
  | nil => intro _; rfl
  | cons l rest ih =>
    intro h
    rw [List.map_cons, py_replace_no_occurrence old new l (h l (by simp)),
      ih (fun x hx => h x (by simp [hx]))]

theorem replace_loop_nil (old new : List Char) (fuel : Nat) (h : old ≠ []) :
    replace_loop old new fuel [] = [] := by
  cases fuel with
  | zero => rfl
  | succ fuel =>
    rw [replace_loop, if_neg (by
      rintro ⟨-, hl⟩
      cases hold : old with
      | nil => exact h hold
      | cons a ps =>
        rw [hold] at hl
        exact Bool.noConfusion hl)]

theorem py_replace_exact (old new : List Char) (h : old ≠ []) :
    py_replace old new old = new := by
  cases hold : old with
  | nil => exact absurd hold h
  | cons a ps =>
    rw [py_replace, replace_loop,
      if_pos ⟨by rw [← hold]; exact h,
        by rw [← hold]; exact (leads_with_iff old old).mpr ⟨[], by simp⟩⟩]
    rw [← hold, List.drop_length, replace_loop_nil old new _ h, List.append_nil]

theorem spectrum_list_header_ne_nil (n : Nat) : spectrum_list_header n ≠ [] := by
  rw [spectrum_list_header]
  intro h
  have h1 : header_front.data ++ (Nat.repr n).data = [] := (List.append_eq_nil.mp h).1
  have h2 : header_front.data = [] := (List.append_eq_nil.mp h1).1
  exact absurd h2 (by decide)

/-- The patched file produced by `update_spectra_count` when the temporary file
consists of lines without the declared-count header except for exactly one line
that is exactly that header: only the count token changes. -/
theorem update_spectra_count_patch (num_of_spectra scan_count : Nat)
    (pre post : List (List Char))
    (hpre : ∀ l ∈ pre, occurs_in (spectrum_list_header num_of_spectra) l = false)
    (hpost : ∀ l ∈ post, occurs_in (spectrum_list_header num_of_spectra) l = false) :
    update_spectra_count (pre ++ [spectrum_list_header num_of_spectra] ++ post)
        num_of_spectra scan_count =
      { content := pre ++ [spectrum_list_header scan_count] ++ post
        tmp_removed := true
        renamed := false } := by
  rw [update_spectra_count]
  have hmap : (pre ++ [spectrum_list_header num_of_spectra] ++ post).map
      (fun line => py_replace (spectrum_list_header num_of_spectra)
        (spectrum_list_header scan_count) line) =
      pre ++ [spectrum_list_header scan_count] ++ post := by
    rw [List.map_append, List.map_append,
      map_py_replace_no_occurrence _ _ pre hpre,
      map_py_replace_no_occurrence _ _ post hpost,
      List.map_cons, List.map_nil,
      py_replace_exact _ _ (spectrum_list_header_ne_nil num_of_spectra)]
  rw [hmap]

/-- Claim C3, counterexample: the `combined` branch of `write_maldi_dd_mzml`
finalizes with declared count equal to true count (here both 1) by rewriting the
temporary file line by line through `update_spectra_count` (write.py:649-650),
not by renaming it — contradicting the claim that a conversion with `D == T`
"is simply renamed/moved into place with no rewrite".  (The resulting bytes are
nevertheless identical, since the replacement string equals the pattern.) -/
theorem claim_C3_counterexample :
    (finalize_maldi_dd_combined [spectrum_list_header 1] 1 1).renamed = false ∧
    (finalize_maldi_dd_combined [spectrum_list_header 1] 1 1).content
      = [spectrum_list_header 1] ∧
    (finalize_maldi_dd_combined [spectrum_list_header 1] 1 1).tmp_removed = true := by
  refine ⟨rfl, ?_, rfl⟩
  show ([spectrum_list_header 1].map
    (fun line => py_replace (spectrum_list_header 1) (spectrum_list_header 1) line))
    = [spectrum_list_header 1]
  rw [List.map_cons, List.map_nil, py_replace_exact _ _ (spectrum_list_header_ne_nil 1)]

/-- Claim C3, amended: for a completed conversion whose temporary file contains
the declared-count header `D` on exactly one line and on no other line: in the
LC-MS path, if `D = T` the temporary file is renamed into place unchanged
(byte-identical, no rewrite), and if `D ≠ T` it is copied line by line with the
header's count token `D` replaced by `T` and no other byte altered, the
temporary file being removed in both cases; in the MALDI dried-droplet
`combined` path the line-by-line copy runs unconditionally — even when `D = T`
there is no rename, though the copied bytes are then identical. -/
theorem claim_C3_count_reconciliation (D T : Nat) (pre post : List (List Char))
    (hpre : ∀ l ∈ pre, occurs_in (spectrum_list_header D) l = false)
    (hpost : ∀ l ∈ post, occurs_in (spectrum_list_header D) l = false) :
    (D = T → finalize_lcms_mzml (pre ++ [spectrum_list_header D] ++ post) D T =
      { content := pre ++ [spectrum_list_header D] ++ post
        tmp_removed := true
        renamed := true }) ∧
    (D ≠ T → finalize_lcms_mzml (pre ++ [spectrum_list_header D] ++ post) D T =
      { content := pre ++ [spectrum_list_header T] ++ post
        tmp_removed := true
        renamed := false }) ∧
    finalize_maldi_dd_combined (pre ++ [spectrum_list_header D] ++ post) D T =
      { content := pre ++ [spectrum_list_header T] ++ post
        tmp_removed := true
        renamed := false } := by
  refine ⟨?_, ?_, ?_⟩
  · intro hDT
    rw [finalize_lcms_mzml, if_neg (by omega)]
  · intro hDT
    rw [finalize_lcms_mzml, if_pos hDT,
      update_spectra_count_patch D T pre post hpre hpost]
  · rw [finalize_maldi_dd_combined,
      update_spectra_count_patch D T pre post hpre hpost]

/-- Claim C3, witness: a three-line temporary file with declared count 2 and
true count 1. -/
theorem claim_C3_witness :
    (2 = 1 → finalize_lcms_mzml ([['<', 'a', '>']] ++ [spectrum_list_header 2]
        ++ [['<', 'b', '>']]) 2 1 =
      { content := [['<', 'a', '>']] ++ [spectrum_list_header 2] ++ [['<', 'b', '>']]
        tmp_removed := true
        renamed := true }) ∧
    (2 ≠ 1 → finalize_lcms_mzml ([['<', 'a', '>']] ++ [spectrum_list_header 2]
        ++ [['<', 'b', '>']]) 2 1 =
      { content := [['<', 'a', '>']] ++ [spectrum_list_header 1] ++ [['<', 'b', '>']]
        tmp_removed := true
        renamed := false }) ∧
    finalize_maldi_dd_combined ([['<', 'a', '>']] ++ [spectrum_list_header 2]
        ++ [['<', 'b', '>']]) 2 1 =
      { content := [['<', 'a', '>']] ++ [spectrum_list_header 1] ++ [['<', 'b', '>']]
        tmp_removed := true
        renamed := false } :=
  claim_C3_count_reconciliation 2 1 [['<', 'a', '>']] [['<', 'b', '>']]
    (by decide) (by decide)

/-- Claim C7, counterexample: with declared count 2, true count 1 and a
temporary file that does not contain the expected header line,
`update_spectra_count` completes normally, producing a final file identical to
the temporary file (declared count left uncorrected) and removing the temporary
file — it is not treated as a fatal defect (the source has no check and no
error path). -/
theorem claim_C7_counterexample :
    (update_spectra_count [['<', 'a', '>']] 2 1).content = [['<', 'a', '>']] ∧
    (update_spectra_count [['<', 'a', '>']] 2 1).tmp_removed = true ∧
    2 ≠ 1 := by
  refine ⟨?_, rfl, by omega⟩
  show ([['<', 'a', '>']].map
    (fun line => py_replace (spectrum_list_header 2) (spectrum_list_header 1) line))
    = [['<', 'a', '>']]
  exact map_py_replace_no_occurrence _ _ [['<', 'a', '>']] (by decide)

/-- Claim C7, amended: when the declared-count header line for `D` is absent
from the temporary file, `update_spectra_count` completes normally: every line
is copied unchanged (the final file keeps the uncorrected declared count) and
the temporary file is removed; no error is raised. -/
theorem claim_C7_missing_header_completes (D T : Nat) (tmp_lines : List (List Char))
    (h : ∀ l ∈ tmp_lines, occurs_in (spectrum_list_header D) l = false) :
    (update_spectra_count tmp_lines D T).content = tmp_lines ∧
    (update_spectra_count tmp_lines D T).tmp_removed = true := by
  refine ⟨?_, rfl⟩
  show (tmp_lines.map
    (fun line => py_replace (spectrum_list_header D) (spectrum_list_header T) line))
    = tmp_lines
  exact map_py_replace_no_occurrence _ _ tmp_lines h

/-- Claim C7, witness: a headerless one-line temporary file with `D = 3`,
`T = 2`. -/
theorem claim_C7_witness :
    (update_spectra_count [['x']] 3 2).content = [['x']] ∧
    (update_spectra_count [['x']] 3 2).tmp_removed = true :=
  claim_C7_missing_header_completes 3 2 [['x']] (by decide)

end Timsconvert
